import Mathlib

/-!
Verification of the geoengine execution-planning and job-scheduling subsystem.

The definitions below are a shallow embedding of the Rust sources:
* `src/cli/project.rs` — `run_tool`, `shell_escape`, `run_project_with_options`;
* `src/config/settings.rs` — `Settings::get_project_path`;
* `src/docker/gpu.rs` — `GpuConfig::detect`;
* `src/proxy/server.rs` and the spec of the Job Manager it spawns.

Filesystem effects (`Path::exists`, `Path::is_file`, `Path::is_dir`,
`Path::file_name`, `canonicalize`, `create_dir_all`) are modelled by an
oracle structure `FS` whose fields are arbitrary functions, so theorems
quantify over every possible filesystem. Rust `HashMap` contents are
modelled as duplicate-free association lists; the (nondeterministic)
iteration order of a `HashMap` is modelled by an explicit `pick` function
that rearranges the entries before the loop that consumes them.
-/

/-- Filesystem oracle: models `std::path` / `std::fs` queries made by the code. -/
structure FS where
  pathExists : String → Bool
  isFile : String → Bool
  isDir : String → Bool
  fileName : String → Option String
  canonicalize : String → Option String
  createDirAll : String → Bool

/-- A container bind mount `(host_path, container_path, readonly)`, as pushed
into `extra_mounts` by `run_tool` (`src/cli/project.rs`, line 927). -/
structure Mount where
  host : String
  containerPath : String
  readonly : Bool
deriving DecidableEq, Repr

/-- Errors surfaced synchronously by the embedded `run_tool` /
`Settings::get_project_path`. Each constructor carries the data that the
Rust code interpolates into its `anyhow` message. -/
inductive RunErr where
  /-- `anyhow::bail!("Invalid input format: '{}'. Expected KEY=VALUE", arg)` -/
  | invalidInput (arg : String)
  /-- `Tool '{tool}' not found in project '{project}'` -/
  | toolNotFound (tool : String) (project : String)
  /-- `Failed to create output directory: {dir}` -/
  | createOutputFailed (dir : String)
  /-- `Failed to resolve output directory: {dir}` -/
  | resolveOutputFailed (dir : String)
  /-- `Failed to resolve input path: {value}` -/
  | resolveInputFailed (value : String)
  /-- `Failed to resolve input directory: {value}` -/
  | resolveInputDirFailed (value : String)
deriving DecidableEq, Repr

/-- A tool parameter definition (`ToolInput` in the project config):
its `name` and optional `map_to` destination-flag alias. -/
structure ParamDef where
  name : String
  map_to : Option String
deriving DecidableEq, Repr

/-- A tool definition: name, target script, optional input parameter list. -/
structure Tool where
  name : String
  script : String
  inputs : Option (List ParamDef)
deriving DecidableEq, Repr

/-- The data `run_tool` hands to `run_project_with_options`: the target
script, the built script argument list, and the accumulated
`extra_mounts` / `extra_env` options. -/
structure ToolRunSpec where
  script : String
  scriptArgs : List String
  extraMounts : List Mount
  extraEnv : List (String × String)
deriving DecidableEq, Repr

/-- Rust `s.splitn(2, '=')` restricted to what the parse loop checks:
returns the two pieces around the first `=`, or `none` when the string
contains no `=` (the `parts.len() != 2` case). -/
def splitEqAux : List Char → Option (List Char × List Char)
  | [] => none
  | c :: rest =>
    if c = '=' then some ([], rest)
    else (splitEqAux rest).map (fun p => (c :: p.1, p.2))

/-- `KEY=VALUE` split on strings (`src/cli/project.rs`, line 919). -/
def splitKV (s : String) : Option (String × String) :=
  (splitEqAux s.toList).map (fun p => (String.mk p.1, String.mk p.2))

/-- `HashMap::insert` on the association-list model: replaces the value of
an existing key, otherwise appends the new binding. -/
def insertKV (m : List (String × String)) (k v : String) : List (String × String) :=
  if m.any (fun p => p.1 == k) then
    m.map (fun p => if p.1 == k then (k, v) else p)
  else m ++ [(k, v)]

/-- The parse loop of `run_tool` step 2 (lines 917–924): folds the raw
`KEY=VALUE` arguments into the inputs map, failing at the first argument
with no `=` separator. -/
def parseInputsAux (acc : List (String × String)) : List String → Except RunErr (List (String × String))
  | [] => .ok acc
  | arg :: rest =>
    match splitKV arg with
    | none => .error (.invalidInput arg)
    | some (k, v) => parseInputsAux (insertKV acc k v) rest

/-- Parse all raw `--input` arguments starting from the empty map. -/
def parseInputs (args : List String) : Except RunErr (List (String × String)) :=
  parseInputsAux [] args

/-- Flag-name resolution (lines 953–956): the matching input definition's
`map_to` if set, else that definition's `name`, else the key itself. -/
def flagName (toolInputs : Option (List ParamDef)) (key : String) : String :=
  match toolInputs.bind (fun l => l.find? (fun i => i.name == key)) with
  | some i => i.map_to.getD i.name
  | none => key

/-- Value processing for one input (lines 958–995): an existing regular
file is rewritten to `/inputs/<basename>` and mounted read-only; an
existing directory is rewritten to `/mnt/input_<counter>` and mounted
read-only; anything else passes through unchanged. Returns the processed
value, the mounts pushed, and the updated directory counter. -/
def processValue (fs : FS) (value : String) (counter : Nat) :
    Except RunErr (String × List Mount × Nat) :=
  if fs.pathExists value then
    if fs.isFile value then
      match fs.fileName value with
      | some filename =>
        match fs.canonicalize value with
        | some abs =>
          .ok ("/inputs/" ++ filename, [⟨abs, "/inputs/" ++ filename, true⟩], counter)
        | none => .error (.resolveInputFailed value)
      | none => .ok (value, [], counter)
    else if fs.isDir value then
      match fs.canonicalize value with
      | some abs =>
        .ok ("/mnt/input_" ++ toString counter,
             [⟨abs, "/mnt/input_" ++ toString counter, true⟩], counter + 1)
      | none => .error (.resolveInputDirFailed value)
    else .ok (value, [], counter)
  else .ok (value, [], counter)

/-- The `for (key, value) in &inputs` loop (lines 951–1000), applied to the
map entries in a given iteration order: emits `--flag value` pairs and
collects input mounts, threading the directory counter. -/
def buildArgs (fs : FS) (toolInputs : Option (List ParamDef)) :
    List (String × String) → Nat → Except RunErr (List String × List Mount)
  | [], _ => .ok ([], [])
  | (k, v) :: rest, counter =>
    match processValue fs v counter with
    | .error e => .error e
    | .ok (pv, ms, counter2) =>
      match buildArgs fs toolInputs rest counter2 with
      | .error e => .error e
      | .ok (args, mounts) =>
        .ok (("--" ++ flagName toolInputs k) :: pv :: args, ms ++ mounts)

/-- Output-directory handling, step 4 (lines 932–940): create the
directory, canonicalize it, mount it read-write at `/output` and set
`GEOENGINE_OUTPUT_DIR=/output`; either failure is a synchronous error. -/
def handleOutputDir (fs : FS) : Option String →
    Except RunErr (List Mount × List (String × String))
  | none => .ok ([], [])
  | some dir =>
    if fs.createDirAll dir then
      match fs.canonicalize dir with
      | some abs =>
        .ok ([⟨abs, "/output", false⟩], [("GEOENGINE_OUTPUT_DIR", "/output")])
      | none => .error (.resolveOutputFailed dir)
    else .error (.createOutputFailed dir)

/-- The plan-building core of `run_tool` (lines 896–1012), with the project
config's tool list supplied directly and the `HashMap` iteration order
supplied as `pick` (any rearrangement of the parsed entries). The steps
mirror the source: tool lookup, input parsing, output-directory handling,
then the argument-building loop; `extra_mounts` receives the output mount
before the input mounts, exactly as the code pushes them. A `.error`
result means the function bails before any container execution. -/
def runTool (fs : FS) (tools : List Tool) (project toolName : String)
    (inputArgs : List String) (outputDir : Option String)
    (pick : List (String × String) → List (String × String)) :
    Except RunErr ToolRunSpec :=
  match tools.find? (fun t => t.name == toolName) with
  | none => .error (.toolNotFound toolName project)
  | some tool =>
    match parseInputs inputArgs with
    | .error e => .error e
    | .ok m =>
      match handleOutputDir fs outputDir with
      | .error e => .error e
      | .ok (outMounts, outEnv) =>
        match buildArgs fs tool.inputs (pick m) 0 with
        | .error e => .error e
        | .ok (args, inMounts) =>
          .ok ⟨tool.script, args, outMounts ++ inMounts, outEnv⟩

/-! ### `shell_escape` and a POSIX shell word model

`shell_escape` (`src/cli/project.rs`, lines 1035–1043) single-quotes the
argument when it contains a character of the special set, doubling out
embedded single quotes via the `'\''` idiom, and otherwise returns the
argument verbatim. Strings are modelled as `List Char` here so that the
escaper and the shell word model recurse structurally. -/

/-- The character set tested by `shell_escape`:
`" \t\n\"'\\$` ++ backtick ++ `!*?[]{}();<>&|"`. -/
def isSpecialChar (c : Char) : Bool :=
  c = ' ' || c = '\t' || c = '\n' || c = '\"' || c = '\'' || c = '\\' ||
  c = '$' || c = '\x60' || c = '!' || c = '*' || c = '?' || c = '[' ||
  c = ']' || c = '\x7b' || c = '\x7d' || c = '(' || c = ')' || c = ';' ||
  c = '<' || c = '>' || c = '&' || c = '|'

/-- Rust `s.replace('\'', "'\\''")` acting on one character: a single quote
becomes close-quote, backslash-escaped quote, reopen-quote. -/
def escSeq (c : Char) : List Char :=
  if c = '\'' then ['\'', '\\', '\'', '\''] else [c]

/-- The quote-doubled body of the escaped string. -/
def escBody (s : List Char) : List Char := (s.map escSeq).flatten

/-- `shell_escape`: wrap in single quotes when any special character is
present, else return the string unchanged. -/
def shellEscape (s : List Char) : List Char :=
  if s.any isSpecialChar then '\'' :: escBody s ++ ['\''] else s

/-- Lexer mode of the POSIX word recognizer: between words, inside an
unquoted word, or inside a single-quoted section. -/
inductive LexMode where
  | between
  | word
  | single
deriving DecidableEq, Repr

/-- Blank characters on which an unquoted POSIX shell word ends. -/
def shSpace (c : Char) : Bool := c = ' ' || c = '\t' || c = '\n'

/-- Characters that, unquoted, do not stand for themselves in a POSIX
shell word: expansion triggers (`$`, backtick), pathname-expansion
characters (`*`, `?`, `[`), control operators (`|`, `&`, `;`, `<`, `>`,
`(`, `)`) and the double quote. -/
def shMeta (c : Char) : Bool :=
  c = '$' || c = '\x60' || c = '*' || c = '?' || c = '[' || c = '|' ||
  c = '&' || c = ';' || c = '<' || c = '>' || c = '(' || c = ')' || c = '\"'

/-- Conservative POSIX shell word recognizer. `lexAux input mode acc toks`
returns `some` of the word list exactly when the input parses as a
sequence of plain literal words: blanks split words, single quotes and
backslashes quote literally, a backslash–newline pair is line
continuation, and any construct whose result could differ from the
literal characters (metacharacters, expansions, word-initial `~` or `#`,
an unterminated quote or trailing backslash) yields `none`. `acc` is the
current word reversed, `toks` the finished words reversed. -/
def lexAux : List Char → LexMode → List Char → List (List Char) → Option (List (List Char))
  | [], .between, _, toks => some toks.reverse
  | [], .word, acc, toks => some ((acc.reverse :: toks).reverse)
  | [], .single, _, _ => none
  | c :: rest, .single, acc, toks =>
    if c = '\'' then lexAux rest .word acc toks
    else lexAux rest .single (c :: acc) toks
  | c :: rest, .between, acc, toks =>
    if shSpace c then lexAux rest .between acc toks
    else if c = '\'' then lexAux rest .single [] toks
    else if c = '\\' then
      match rest with
      | [] => none
      | d :: rest2 =>
        if d = '\n' then lexAux rest2 .between acc toks
        else lexAux rest2 .word (d :: acc) toks
    else if c = '#' || c = '~' then none
    else if shMeta c then none
    else lexAux rest .word (c :: acc) toks
  | c :: rest, .word, acc, toks =>
    if shSpace c then lexAux rest .between [] (acc.reverse :: toks)
    else if c = '\'' then lexAux rest .single acc toks
    else if c = '\\' then
      match rest with
      | [] => none
      | d :: rest2 =>
        if d = '\n' then lexAux rest2 .word acc toks
        else lexAux rest2 .word (d :: acc) toks
    else if shMeta c then none
    else lexAux rest .word (c :: acc) toks

/-- Parse a command-line fragment as a list of literal shell words. -/
def shLex (s : List Char) : Option (List (List Char)) :=
  lexAux s .between [] []

/-! ### Job Manager (spec-modelled)

The Job Manager lives in `src/proxy/jobs.rs`, which is not part of the
provided sources; only its construction site `JobManager::new(max_workers)`
in `ProxyServer::run` (`src/proxy/server.rs`, lines 41–44) and its HTTP
callers are. The state machine below is therefore *modelled from the
spec*: §3 (JobState transitions), §4.2 (submit, cancel, the scheduling
loop that promotes the oldest `Queued` job while the `Running` count is
below `max_workers`) and §5 (all transitions serialized, so observable
instants are exactly the states of this transition system). -/

/-- Job lifecycle states (spec §3). -/
inductive JobState where
  | queued
  | running
  | completed
  | failed
  | cancelled
deriving DecidableEq, Repr

/-- Modelled from the spec: the Job Manager's registry, reduced to the
per-job states (creation order = list order) and the concurrency bound
`max_workers` fixed at construction. -/
structure JM where
  maxWorkers : Nat
  jobs : List JobState
deriving DecidableEq, Repr

/-- Number of jobs currently in the `Running` state. -/
def runningCount (l : List JobState) : Nat :=
  l.countP (fun s => s == .running)

/-- `JobManager::new(max_workers)`: empty registry. -/
def initJM (w : Nat) : JM := ⟨w, []⟩

/-- Modelled from the spec: one serialized Job Manager transition.
`submit` appends a `Queued` job; `promote` moves the oldest `Queued` job
to `Running`, guarded by the concurrency bound; `finish` moves a
`Running` job to a terminal state (completion, failure, or confirmed
cancellation — including failed stop requests, spec §4.2); `cancelQueued`
cancels a `Queued` job directly. -/
inductive JMStep : JM → JM → Prop where
  | submit (m : JM) :
      JMStep m ⟨m.maxWorkers, m.jobs ++ [.queued]⟩
  | promote (m : JM) (i : Nat) (h : i < m.jobs.length)
      (hq : m.jobs[i] = .queued)
      (hfirst : ∀ j, (hj : j < i) → m.jobs.get ⟨j, by omega⟩ ≠ .queued)
      (hcap : runningCount m.jobs < m.maxWorkers) :
      JMStep m ⟨m.maxWorkers, m.jobs.set i .running⟩
  | finish (m : JM) (i : Nat) (h : i < m.jobs.length)
      (hr : m.jobs[i] = .running) (t : JobState)
      (ht : t = .completed ∨ t = .failed ∨ t = .cancelled) :
      JMStep m ⟨m.maxWorkers, m.jobs.set i t⟩
  | cancelQueued (m : JM) (i : Nat) (h : i < m.jobs.length)
      (hq : m.jobs[i] = .queued) :
      JMStep m ⟨m.maxWorkers, m.jobs.set i .cancelled⟩

/-- Reachability of a Job Manager state from the freshly constructed one. -/
def JMReachable (w : Nat) (m : JM) : Prop :=
  Relation.ReflTransGen JMStep (initJM w) m

/-! ### GPU detection (`src/docker/gpu.rs`) -/

/-- Type of GPU detected. -/
inductive GpuType where
  | nvidia
  | metal
  | noGpu
deriving DecidableEq, Repr

/-- GPU configuration for container execution. -/
structure GpuConfig where
  gpu_type : GpuType
  count : Nat
  devices : List String
deriving DecidableEq, Repr

/-- The configuration `GpuConfig::detect` falls back to when no GPU is
found (`src/docker/gpu.rs`, lines 42–46). -/
def noGpuConfig : GpuConfig := ⟨.noGpu, 0, []⟩

/-- `GpuConfig::detect` (lines 29–47), with the outcomes of the external
probes passed in: try `detect_nvidia`, then (only in the macOS build)
`detect_metal`, and otherwise return the no-GPU configuration — the
`Result` is always `Ok`. -/
def gpuDetect (nvidiaProbe : Except String GpuConfig) (macos : Bool)
    (metalProbe : Except String GpuConfig) : Except String GpuConfig :=
  match nvidiaProbe with
  | .ok c => .ok c
  | .error _ =>
    if macos then
      match metalProbe with
      | .ok c => .ok c
      | .error _ => .ok noGpuConfig
    else .ok noGpuConfig

/-- The GPU step of `run_project_with_options` (`src/cli/project.rs`,
lines 593–598): `GpuConfig::detect().await.ok()` when the project runtime
enables GPU, `None` otherwise. -/
def gpuConfigFor (gpuEnabled : Bool) (nvidiaProbe : Except String GpuConfig)
    (macos : Bool) (metalProbe : Except String GpuConfig) : Option GpuConfig :=
  if gpuEnabled then (gpuDetect nvidiaProbe macos metalProbe).toOption else none

/-! ### `Settings::get_project_path` (`src/config/settings.rs`, lines 89–105) -/

/-- Errors raised by `Settings::get_project_path`: the `Project '{}' not
found` bail, or propagation of a `canonicalize` IO failure. -/
inductive PathErr where
  | notFound (name : String)
  | resolveFailed (name : String)
deriving DecidableEq, Repr

/-- Lookup in the registered-projects map (`self.projects.get(name)`). -/
def lookupProject (projects : List (String × String)) (name : String) : Option String :=
  (projects.find? (fun p => p.1 == name)).map (fun p => p.2)

/-- `Settings::get_project_path`: the registered path when the name is in
the map; otherwise, when the name exists on disk and `<name>/geoengine.yaml`
exists, the canonicalized name (a failing `canonicalize` propagates as an
IO error); otherwise the not-found error. The settings are taken by
shared reference in the source (`&self`) and are never modified. -/
def getProjectPath (projects : List (String × String)) (fs : FS) (name : String) :
    Except PathErr String :=
  match lookupProject projects name with
  | some p => .ok p
  | none =>
    if fs.pathExists name && fs.pathExists (name ++ "/geoengine.yaml") then
      match fs.canonicalize name with
      | some abs => .ok abs
      | none => .error (.resolveFailed name)
    else .error (.notFound name)

/-! ### Concrete fixtures used by witnesses and counterexamples -/

/-- A filesystem on which no path exists. -/
def fsEmpty : FS :=
  ⟨fun _ => false, fun _ => false, fun _ => false, fun _ => none, fun _ => none, fun _ => false⟩

/-- A filesystem with one regular file `/tmp/in.tif`, one data directory
`/tmp/data`, and a creatable output directory `/tmp/out`. -/
def fsDemo : FS where
  pathExists := fun s => s == "/tmp/in.tif" || s == "/tmp/data"
  isFile := fun s => s == "/tmp/in.tif"
  isDir := fun s => s == "/tmp/data"
  fileName := fun s => if s == "/tmp/in.tif" then some "in.tif" else none
  canonicalize := fun s =>
    if s == "/tmp/in.tif" then some "/tmp/in.tif"
    else if s == "/tmp/data" then some "/tmp/data"
    else if s == "/tmp/out" then some "/tmp/out" else none
  createDirAll := fun s => s == "/tmp/out"

/-- A filesystem with two distinct regular files sharing the base name
`in.tif`. -/
def fsTwin : FS where
  pathExists := fun s => s == "/tmp/a/in.tif" || s == "/tmp/b/in.tif"
  isFile := fun s => s == "/tmp/a/in.tif" || s == "/tmp/b/in.tif"
  isDir := fun _ => false
  fileName := fun s =>
    if s == "/tmp/a/in.tif" || s == "/tmp/b/in.tif" then some "in.tif" else none
  canonicalize := fun s =>
    if s == "/tmp/a/in.tif" then some "/tmp/a/in.tif"
    else if s == "/tmp/b/in.tif" then some "/tmp/b/in.tif" else none
  createDirAll := fun _ => false

/-- A tool without parameter definitions (every key passes through). -/
def toolPlain : Tool := ⟨"t", "run.py", none⟩

/-- A tool whose `raster` input has the `map_to` alias `input-raster`. -/
def toolMapped : Tool :=
  ⟨"classify", "classify.py", some [⟨"raster", some "input-raster"⟩, ⟨"threshold", none⟩]⟩

/-! ### Claim theorems -/

/-- Claim C1. The claim states that the `--flag value` pairs appended by
`run_tool` are ordered by sorted key and that the iteration order of the
unordered input map never leaks into the command line. The code
(`src/cli/project.rs`, line 951) iterates the `HashMap` directly without
sorting, so two legitimate iteration orders of the same input map — `id`
and `List.reverse`, which produce permutations of the same entries —
yield different command lines: the claim fails on the code as written,
while the spec (§4.1 "MUST be deterministic … sort by key", §9) makes the
sorted order the stated intent. -/
theorem c1_iteration_order_leaks :
    parseInputs ["a=1", "b=2"] = .ok [("a", "1"), ("b", "2")] ∧
    (List.reverse [("a", "1"), ("b", "2")]).Perm [("a", "1"), ("b", "2")] ∧
    runTool fsEmpty [toolPlain] "p" "t" ["a=1", "b=2"] none id =
      .ok ⟨"run.py", ["--a", "1", "--b", "2"], [], []⟩ ∧
    runTool fsEmpty [toolPlain] "p" "t" ["a=1", "b=2"] none List.reverse =
      .ok ⟨"run.py", ["--b", "2", "--a", "1"], [], []⟩ ∧
    (⟨"run.py", ["--a", "1", "--b", "2"], [], []⟩ : ToolRunSpec) ≠
      ⟨"run.py", ["--b", "2", "--a", "1"], [], []⟩ :=
  ⟨rfl, List.Perm.swap ("a", "1") ("b", "2") [], rfl, rfl, by decide⟩

/-- Claim C3: an input value that the filesystem resolves to an existing
regular file is rewritten to `/inputs/<basename>` with a read-only mount
of its canonicalized host path; an existing directory is rewritten to the
indexed `/mnt/input_<counter>` path with a read-only mount; a value that
is not an existing path passes through unchanged; and the loop appends
`--flag processed-value` to the command for each entry. -/
theorem c3_input_path_rewrite (fs : FS) (v : String) (counter : Nat) :
    (∀ b a, fs.pathExists v = true → fs.isFile v = true →
      fs.fileName v = some b → fs.canonicalize v = some a →
      processValue fs v counter =
        .ok ("/inputs/" ++ b, [⟨a, "/inputs/" ++ b, true⟩], counter)) ∧
    (∀ a, fs.pathExists v = true → fs.isFile v = false → fs.isDir v = true →
      fs.canonicalize v = some a →
      processValue fs v counter =
        .ok ("/mnt/input_" ++ toString counter,
             [⟨a, "/mnt/input_" ++ toString counter, true⟩], counter + 1)) ∧
    (fs.pathExists v = false →
      processValue fs v counter = .ok (v, [], counter)) ∧
    (∀ toolInputs k rest counter2 pv ms restArgs restMounts,
      processValue fs v counter = .ok (pv, ms, counter2) →
      buildArgs fs toolInputs rest counter2 = .ok (restArgs, restMounts) →
      buildArgs fs toolInputs ((k, v) :: rest) counter =
        .ok (("--" ++ flagName toolInputs k) :: pv :: restArgs, ms ++ restMounts)) := by
  refine ⟨?_, ?_, ?_, ?_⟩
  · intro b a h1 h2 h3 h4
    simp [processValue, h1, h2, h3, h4]
  · intro a h1 h2 h3 h4
    simp [processValue, h1, h2, h3, h4]
  · intro h1
    simp [processValue, h1]
  · intro toolInputs k rest counter2 pv ms restArgs restMounts hp hb
    simp [buildArgs, hp, hb]

/-- Witness for C3: on `fsDemo`, the file `/tmp/in.tif` is rewritten to
`/inputs/in.tif` and mounted read-only. -/
theorem c3_witness :
    processValue fsDemo "/tmp/in.tif" 0 =
      .ok ("/inputs/in.tif", [⟨"/tmp/in.tif", "/inputs/in.tif", true⟩], 0) :=
  (c3_input_path_rewrite fsDemo "/tmp/in.tif" 0).1 "in.tif" "/tmp/in.tif"
    (by decide) (by decide) (by decide) (by decide)

/-- Claim C7: the flag emitted for a parsed key is the matching parameter
definition's `map_to` alias when present, else that definition's name,
and a key with no matching definition (or no tool input list at all)
passes through as its own flag name. -/
theorem c7_flag_name (ti : List ParamDef) (k : String) :
    (∀ d, ti.find? (fun i => i.name == k) = some d →
      flagName (some ti) k = d.map_to.getD d.name) ∧
    (ti.find? (fun i => i.name == k) = none → flagName (some ti) k = k) ∧
    flagName none k = k := by
  refine ⟨?_, ?_, rfl⟩
  · intro d hd
    simp [flagName, hd]
  · intro hn
    simp [flagName, hn]

/-- Witness for C7: the `raster` key of `toolMapped` is emitted as its
`input-raster` alias. -/
theorem c7_witness :
    flagName (some [⟨"raster", some "input-raster"⟩, ⟨"threshold", none⟩]) "raster" =
      "input-raster" :=
  (c7_flag_name [⟨"raster", some "input-raster"⟩, ⟨"threshold", none⟩] "raster").1
    ⟨"raster", some "input-raster"⟩ (by decide)

/-- The parse loop bails with `Invalid input format` at the first argument
whose `splitn(2, '=')` yields fewer than two pieces, whatever map has
been accumulated so far. -/
theorem parseInputsAux_first_bad (a : String) :
    ∀ (args : List String) (acc : List (String × String)),
      args.find? (fun s => (splitKV s).isNone) = some a →
      parseInputsAux acc args = .error (.invalidInput a)
  | [], _, h => by simp [List.find?] at h
  | x :: rest, acc, h => by
    cases hsk : splitKV x with
    | none =>
      have hx : a = x := by
        rw [List.find?_cons] at h
        simp [hsk] at h
        exact h.symm
      subst hx
      simp [parseInputsAux, hsk]
    | some p =>
      rw [List.find?_cons] at h
      simp [hsk] at h
      simpa [parseInputsAux, hsk] using
        parseInputsAux_first_bad a rest (insertKV acc p.1 p.2) h

/-- Claim C5: when the tool resolves and some raw `--input` argument
contains no `=` separator, `run_tool` fails with the invalid-input error
carrying that offending token (the first such argument, matching the
loop's bail), and no execution plan is produced — the `.error` result is
returned before any container operation. -/
theorem c5_invalid_input (fs : FS) (tools : List Tool) (project toolName : String)
    (inputArgs : List String) (outputDir : Option String)
    (pick : List (String × String) → List (String × String)) (tool : Tool)
    (ht : tools.find? (fun t => t.name == toolName) = some tool)
    (hbad : ∃ a ∈ inputArgs, splitKV a = none) :
    ∃ a, a ∈ inputArgs ∧ splitKV a = none ∧
      runTool fs tools project toolName inputArgs outputDir pick =
        .error (.invalidInput a) := by
  have hsome : (inputArgs.find? (fun s => (splitKV s).isNone)).isSome := by
    rw [List.find?_isSome]
    obtain ⟨a, ha, hn⟩ := hbad
    exact ⟨a, ha, by simp [hn]⟩
  obtain ⟨a0, ha0⟩ := Option.isSome_iff_exists.mp hsome
  have hmem : a0 ∈ inputArgs := List.mem_of_find?_eq_some ha0
  have hnone : splitKV a0 = none := by
    have := List.find?_some ha0
    simpa using this
  refine ⟨a0, hmem, hnone, ?_⟩
  have hparse : parseInputs inputArgs = .error (.invalidInput a0) :=
    parseInputsAux_first_bad a0 inputArgs [] ha0
  unfold runTool
  rw [ht, hparse]

/-- Witness for C5: the argument `oops` has no `=`, so the run fails with
the invalid-input error naming it. -/
theorem c5_witness :
    ∃ a, a ∈ ["oops"] ∧ splitKV a = none ∧
      runTool fsEmpty [toolPlain] "p" "t" ["oops"] none id =
        .error (.invalidInput a) :=
  c5_invalid_input fsEmpty [toolPlain] "p" "t" ["oops"] none id toolPlain
    (by decide) ⟨"oops", by decide, by decide⟩

/-- Claim C6: a supplied output directory is created (modelled by the
`createDirAll` oracle), mounted read-write (`readonly = false`) at the
fixed container path `/output`, and `GEOENGINE_OUTPUT_DIR=/output` is
added to the environment; failure to create or to canonicalize the
directory is a synchronous error, which `run_tool` returns before
building a plan. -/
theorem c6_output_dir (fs : FS) (dir : String) :
    (∀ a, fs.createDirAll dir = true → fs.canonicalize dir = some a →
      handleOutputDir fs (some dir) =
        .ok ([⟨a, "/output", false⟩], [("GEOENGINE_OUTPUT_DIR", "/output")])) ∧
    (fs.createDirAll dir = false →
      handleOutputDir fs (some dir) = .error (.createOutputFailed dir)) ∧
    (fs.createDirAll dir = true → fs.canonicalize dir = none →
      handleOutputDir fs (some dir) = .error (.resolveOutputFailed dir)) ∧
    (∀ tools tool project toolName pick e,
      tools.find? (fun t => t.name == toolName) = some tool →
      handleOutputDir fs (some dir) = .error e →
      runTool fs tools project toolName [] (some dir) pick = .error e) ∧
    (∀ tools tool project toolName pick a,
      tools.find? (fun t => t.name == toolName) = some tool →
      pick [] = [] →
      fs.createDirAll dir = true → fs.canonicalize dir = some a →
      runTool fs tools project toolName [] (some dir) pick =
        .ok ⟨tool.script, [], [⟨a, "/output", false⟩],
             [("GEOENGINE_OUTPUT_DIR", "/output")]⟩) := by
  refine ⟨?_, ?_, ?_, ?_, ?_⟩
  · intro a h1 h2
    simp [handleOutputDir, h1, h2]
  · intro h1
    simp [handleOutputDir, h1]
  · intro h1 h2
    simp [handleOutputDir, h1, h2]
  · intro tools tool project toolName pick e ht he
    unfold runTool
    rw [ht, show parseInputs [] = .ok [] from rfl, he]
  · intro tools tool project toolName pick a ht hp h1 h2
    unfold runTool
    rw [ht, show parseInputs [] = .ok [] from rfl,
        show handleOutputDir fs (some dir) =
          .ok ([⟨a, "/output", false⟩], [("GEOENGINE_OUTPUT_DIR", "/output")]) by
            simp [handleOutputDir, h1, h2]]
    simp [hp, buildArgs]

/-- Witness for C6: creating and mounting `/tmp/out` on `fsDemo`. -/
theorem c6_witness :
    handleOutputDir fsDemo (some "/tmp/out") =
      .ok ([⟨"/tmp/out", "/output", false⟩], [("GEOENGINE_OUTPUT_DIR", "/output")]) :=
  (c6_output_dir fsDemo "/tmp/out").1 "/tmp/out" (by decide) (by decide)

/-- Claim C8: `GpuConfig::detect` always returns `Ok` (its fallback is the
no-GPU configuration), GPU detection is attempted only when the runtime
configuration enables it, and when it is enabled but every probe fails
the resulting plan configuration is the silent no-GPU fallback with an
empty device list — never an error. -/
theorem c8_gpu_best_effort (gpuEnabled macos : Bool)
    (nvidiaProbe metalProbe : Except String GpuConfig) :
    (∃ c, gpuDetect nvidiaProbe macos metalProbe = .ok c) ∧
    (gpuEnabled = false →
      gpuConfigFor gpuEnabled nvidiaProbe macos metalProbe = none) ∧
    (nvidiaProbe.isOk = false → (macos = true → metalProbe.isOk = false) →
      gpuConfigFor true nvidiaProbe macos metalProbe = some noGpuConfig ∧
      noGpuConfig.devices = []) := by
  refine ⟨?_, ?_, ?_⟩
  · cases nvidiaProbe with
    | ok c => exact ⟨c, rfl⟩
    | error e =>
      cases macos with
      | false => exact ⟨noGpuConfig, rfl⟩
      | true =>
        cases metalProbe with
        | ok c => exact ⟨c, rfl⟩
        | error e2 => exact ⟨noGpuConfig, rfl⟩
  · intro h
    simp [gpuConfigFor, h]
  · intro hn hm
    cases nvidiaProbe with
    | ok c => simp [Except.isOk, Except.toBool] at hn
    | error e =>
      cases macos with
      | false => exact ⟨rfl, rfl⟩
      | true =>
        cases metalProbe with
        | ok c => simp [Except.isOk, Except.toBool] at hm
        | error e2 => exact ⟨rfl, rfl⟩

/-- Witness for C8: GPU enabled, both probes fail, non-macOS build — the
plan silently gets the empty no-GPU configuration. -/
theorem c8_witness :
    gpuConfigFor true (Except.error "nvidia-smi not found") false
      (Except.error "no metal") = some noGpuConfig :=
  ((c8_gpu_best_effort true false (Except.error "nvidia-smi not found")
      (Except.error "no metal")).2.2 rfl (fun h => by cases h)).1

/-- Claim C9: the mount destination of a file-valued input depends only on
the file's base name. When two distinct parsed keys resolve to existing
regular files sharing base name `b`, the built plan carries two mount
entries with the identical container path `/inputs/<b>` — one per input,
unqualified by parameter name. -/
theorem c9_basename_collision (fs : FS) (tools : List Tool) (tool : Tool)
    (project toolName : String) (inputArgs : List String)
    (pick : List (String × String) → List (String × String))
    (m : List (String × String)) (k1 k2 v1 v2 b a1 a2 : String)
    (hk : k1 ≠ k2)
    (ht : tools.find? (fun t => t.name == toolName) = some tool)
    (hm : parseInputs inputArgs = .ok m)
    (hpick : pick m = [(k1, v1), (k2, v2)])
    (h1e : fs.pathExists v1 = true) (h1f : fs.isFile v1 = true)
    (h1n : fs.fileName v1 = some b) (h1c : fs.canonicalize v1 = some a1)
    (h2e : fs.pathExists v2 = true) (h2f : fs.isFile v2 = true)
    (h2n : fs.fileName v2 = some b) (h2c : fs.canonicalize v2 = some a2) :
    runTool fs tools project toolName inputArgs none pick =
      .ok ⟨tool.script,
           ["--" ++ flagName tool.inputs k1, "/inputs/" ++ b,
            "--" ++ flagName tool.inputs k2, "/inputs/" ++ b],
           [⟨a1, "/inputs/" ++ b, true⟩, ⟨a2, "/inputs/" ++ b, true⟩], []⟩ := by
  unfold runTool
  rw [ht, hm]
  simp [handleOutputDir, hpick, buildArgs, processValue,
        h1e, h1f, h1n, h1c, h2e, h2f, h2n, h2c]

/-- Witness for C9: two keys bound to `/tmp/a/in.tif` and `/tmp/b/in.tif`
produce two mounts that both target `/inputs/in.tif`. -/
theorem c9_witness :
    runTool fsTwin [toolPlain] "p" "t"
      ["x=/tmp/a/in.tif", "y=/tmp/b/in.tif"] none id =
      .ok ⟨"run.py",
           ["--x", "/inputs/in.tif", "--y", "/inputs/in.tif"],
           [⟨"/tmp/a/in.tif", "/inputs/in.tif", true⟩,
            ⟨"/tmp/b/in.tif", "/inputs/in.tif", true⟩], []⟩ := by
  have h := c9_basename_collision fsTwin [toolPlain] toolPlain "p" "t"
    ["x=/tmp/a/in.tif", "y=/tmp/b/in.tif"] id
    [("x", "/tmp/a/in.tif"), ("y", "/tmp/b/in.tif")]
    "x" "y" "/tmp/a/in.tif" "/tmp/b/in.tif" "in.tif" "/tmp/a/in.tif" "/tmp/b/in.tif"
    (by decide) (by decide) rfl (by decide)
    (by decide) (by decide) (by decide) (by decide)
    (by decide) (by decide) (by decide) (by decide)
  simpa [flagName] using h

/-- Claim C10: `Settings::get_project_path` returns the stored path for a
registered name; for an unregistered name that exists on disk with a
`geoengine.yaml` inside, it returns the canonicalized path; and it
returns the not-found error exactly when neither condition holds (a
`canonicalize` failure under the second condition surfaces as an IO
error, not as not-found). The settings are only read (`&self`), never
modified. -/
theorem c10_get_project_path (projects : List (String × String)) (fs : FS)
    (name : String) :
    (∀ p, lookupProject projects name = some p →
      getProjectPath projects fs name = .ok p) ∧
    (∀ a, lookupProject projects name = none →
      fs.pathExists name = true → fs.pathExists (name ++ "/geoengine.yaml") = true →
      fs.canonicalize name = some a →
      getProjectPath projects fs name = .ok a) ∧
    (getProjectPath projects fs name = .error (.notFound name) ↔
      lookupProject projects name = none ∧
      ¬(fs.pathExists name = true ∧
        fs.pathExists (name ++ "/geoengine.yaml") = true)) := by
  refine ⟨?_, ?_, ?_⟩
  · intro p hp
    simp [getProjectPath, hp]
  · intro a h0 h1 h2 h3
    simp [getProjectPath, h0, h1, h2, h3]
  · constructor
    · intro h
      cases hl : lookupProject projects name with
      | some p =>
        rw [getProjectPath, hl] at h
        exact absurd h (by simp)
      | none =>
        refine ⟨rfl, ?_⟩
        rintro ⟨he1, he2⟩
        rw [getProjectPath, hl] at h
        rw [he1, he2] at h
        cases hc : fs.canonicalize name with
        | some a => rw [hc] at h; simp at h
        | none => rw [hc] at h; simp at h
    · rintro ⟨hl, hcond⟩
      have hfalse : (fs.pathExists name &&
          fs.pathExists (name ++ "/geoengine.yaml")) = false := by
        cases hx : fs.pathExists name <;>
          cases hy : fs.pathExists (name ++ "/geoengine.yaml") <;>
          simp_all
      rw [getProjectPath, hl, hfalse]
      simp

/-- Witness for C10: a registered project resolves to its stored path. -/
theorem c10_witness :
    getProjectPath [("demo", "/home/u/demo")] fsEmpty "demo" =
      .ok "/home/u/demo" :=
  (c10_get_project_path [("demo", "/home/u/demo")] fsEmpty "demo").1
    "/home/u/demo" (by decide)

/-- Setting a list element changes `countP` by the difference of the old
and new elements' predicate values (specialized rephrasing of
`List.countP_set` without truncated subtraction). -/
theorem countP_set_balance (p : JobState → Bool) (l : List JobState) (i : Nat)
    (s : JobState) (h : i < l.length) :
    (l.set i s).countP p + (if p l[i] then 1 else 0) =
      l.countP p + (if p s then 1 else 0) := by
  induction l generalizing i with
  | nil => simp at h
  | cons x tl ih =>
    cases i with
    | zero => simp [List.countP_cons]; omega
    | succ j =>
      have hj : j < tl.length := by simpa using h
      have := ih j hj
      simp [List.countP_cons]
      omega

/-- Claim C2: in every Job Manager state reachable from the freshly
constructed manager with concurrency bound `w` (the `JobManager::new(
max_workers)` of `ProxyServer::run`, with transitions modelled from the
spec since `src/proxy/jobs.rs` is not among the sources), the number of
jobs in the `Running` state is at most `w`. -/
theorem c2_running_bound (w : Nat) (m : JM) (h : JMReachable w m) :
    runningCount m.jobs ≤ w := by
  have key : m.maxWorkers = w ∧ runningCount m.jobs ≤ w := by
    induction h with
    | refl => exact ⟨rfl, Nat.zero_le w⟩
    | @tail mid c hsteps step ih =>
      obtain ⟨hw, hc⟩ := ih
      cases step with
      | submit =>
        refine ⟨hw, ?_⟩
        simpa [runningCount, List.countP_append] using hc
      | promote i hlen hq hfirst hcap =>
        refine ⟨hw, ?_⟩
        have hbal := countP_set_balance (fun s => s == .running) mid.jobs i .running hlen
        rw [hq] at hbal
        simp only [runningCount] at *
        simp at hbal
        omega
      | finish i hlen hr t htm =>
        refine ⟨hw, ?_⟩
        have hbal := countP_set_balance (fun s => s == .running) mid.jobs i t hlen
        rw [hr] at hbal
        have htr : (t == JobState.running) = false := by
          rcases htm with h1 | h1 | h1 <;> subst h1 <;> rfl
        rw [htr] at hbal
        simp only [runningCount] at *
        simp at hbal
        omega
      | cancelQueued i hlen hq =>
        refine ⟨hw, ?_⟩
        have hbal := countP_set_balance (fun s => s == .running) mid.jobs i .cancelled hlen
        rw [hq] at hbal
        simp only [runningCount] at *
        simp at hbal
        omega
  exact key.2

/-- Witness for C2: with bound 1, submitting one job and promoting it
reaches a state with one `Running` job, within the bound. -/
theorem c2_witness : runningCount [JobState.running] ≤ 1 := by
  have s1 : JMStep (initJM 1) ⟨1, [JobState.queued]⟩ := JMStep.submit (initJM 1)
  have s2 : JMStep ⟨1, [JobState.queued]⟩ ⟨1, [JobState.running]⟩ :=
    JMStep.promote ⟨1, [JobState.queued]⟩ 0 (by decide) rfl
      (fun j hj => absurd hj (Nat.not_lt_zero j)) (by decide)
  exact c2_running_bound 1 ⟨1, [JobState.running]⟩
    (Relation.ReflTransGen.tail (Relation.ReflTransGen.tail
      Relation.ReflTransGen.refl s1) s2)

/-- A character that stands for itself inside an unquoted shell word:
not a blank, not a metacharacter, not a quote, not a backslash. -/
def shOrdinary (c : Char) : Bool :=
  !shSpace c && !shMeta c && !(c = '\'') && !(c = '\\')

/-- Every character outside `shell_escape`'s special set is ordinary for
the word lexer: the escaper's set covers blanks, quotes, backslash and
all metacharacters. -/
theorem shOrdinary_of_not_special (c : Char) (h : isSpecialChar c = false) :
    shOrdinary c = true := by
  simp only [isSpecialChar, Bool.or_eq_false_iff, decide_eq_false_iff_not] at h
  simp only [shOrdinary, shSpace, shMeta, Bool.and_eq_true, Bool.not_eq_true',
    Bool.or_eq_false_iff, decide_eq_false_iff_not]
  tauto

/-- Lexing a run of ordinary characters in word mode appends them all to
the current word. -/
theorem lexAux_word_ordinary :
    ∀ (l acc : List Char) (toks : List (List Char)),
      (∀ c ∈ l, shOrdinary c = true) →
      lexAux l .word acc toks = some (toks.reverse ++ [acc.reverse ++ l])
  | [], acc, toks, _ => by rw [lexAux.eq_def]; simp
  | c :: l, acc, toks, h => by
    have hc := h c (List.mem_cons_self c l)
    have hl : ∀ x ∈ l, shOrdinary x = true :=
      fun x hx => h x (List.mem_cons_of_mem c hx)
    simp only [shOrdinary, Bool.and_eq_true, Bool.not_eq_true',
      decide_eq_false_iff_not] at hc
    obtain ⟨⟨⟨hsp, hmt⟩, hq⟩, hb⟩ := hc
    rw [show lexAux (c :: l) .word acc toks = lexAux l .word (c :: acc) toks by
      rw [lexAux.eq_def]; simp [hsp, hmt, hq, hb]]
    rw [lexAux_word_ordinary l (c :: acc) toks hl]
    simp

/-- Lexing the quote-doubled body of a string from inside single quotes
consumes the body and the closing quote, transferring the original
characters to the current word. -/
theorem lexAux_escBody :
    ∀ (s acc : List Char) (toks : List (List Char)) (rest : List Char),
      lexAux (escBody s ++ '\'' :: rest) .single acc toks =
        lexAux rest .word (s.reverse ++ acc) toks
  | [], acc, toks, rest => by
    rw [show escBody [] ++ '\'' :: rest = '\'' :: rest by simp [escBody]]
    rw [show lexAux ('\'' :: rest) .single acc toks = lexAux rest .word acc toks by
      rw [lexAux.eq_def]; simp]
    simp
  | c :: s, acc, toks, rest => by
    by_cases hc : c = '\''
    · subst hc
      rw [show escBody ('\'' :: s) ++ '\'' :: rest =
            '\'' :: '\\' :: '\'' :: '\'' :: (escBody s ++ '\'' :: rest) by
        simp [escBody, escSeq]]
      rw [show lexAux ('\'' :: '\\' :: '\'' :: '\'' :: (escBody s ++ '\'' :: rest))
            .single acc toks =
          lexAux (escBody s ++ '\'' :: rest) .single ('\'' :: acc) toks by
        rw [lexAux.eq_def]
        simp only [if_pos rfl]
        rw [lexAux.eq_def]
        simp +decide [shSpace, shMeta]
        rw [lexAux.eq_def]
        simp +decide [shSpace, shMeta]]
      rw [lexAux_escBody s ('\'' :: acc) toks rest]
      simp
    · rw [show escBody (c :: s) ++ '\'' :: rest =
            c :: (escBody s ++ '\'' :: rest) by simp [escBody, escSeq, hc]]
      rw [show lexAux (c :: (escBody s ++ '\'' :: rest)) .single acc toks =
          lexAux (escBody s ++ '\'' :: rest) .single (c :: acc) toks by
        rw [lexAux.eq_def]; simp [hc]]
      rw [lexAux_escBody s (c :: acc) toks rest]
      simp

/-- A fully single-quoted escape parses as exactly one word, the original
string. -/
theorem shLex_quoted (s : List Char) :
    shLex ('\'' :: escBody s ++ ['\'']) = some [s] := by
  unfold shLex
  rw [show ('\'' :: escBody s) ++ ['\''] = '\'' :: (escBody s ++ '\'' :: []) by simp]
  rw [show lexAux ('\'' :: (escBody s ++ '\'' :: [])) .between [] [] =
      lexAux (escBody s ++ '\'' :: []) .single [] [] by
    rw [lexAux.eq_def]; simp +decide [shSpace]]
  rw [lexAux_escBody s [] [] []]
  rw [lexAux.eq_def]
  simp

/-- An unquoted string of ordinary characters whose first character is
neither `#` nor `~` parses as exactly one word, itself. -/
theorem shLex_unquoted (c : Char) (l : List Char)
    (hc : shOrdinary c = true) (h2 : ¬(c = '#')) (h3 : ¬(c = '~'))
    (hl : ∀ x ∈ l, shOrdinary x = true) :
    shLex (c :: l) = some [c :: l] := by
  unfold shLex
  simp only [shOrdinary, Bool.and_eq_true, Bool.not_eq_true',
    decide_eq_false_iff_not] at hc
  obtain ⟨⟨⟨hsp, hmt⟩, hq⟩, hb⟩ := hc
  rw [show lexAux (c :: l) .between [] [] = lexAux l .word [c] [] by
    rw [lexAux.eq_def]; simp [hsp, hmt, hq, hb, h2, h3]]
  rw [lexAux_word_ordinary l [c] [] hl]
  simp

/-- Claim C4 counterexample: the claim fails at the empty argument,
which `shell_escape` returns unchanged (no special character occurs in
it) and which a POSIX shell parses as zero tokens rather than one empty
token. The other two conjuncts exhibit the only further failing inputs,
which the amendment also excludes: an argument built solely from
non-special characters whose first character is `~` or `#` is likewise
returned unquoted, and its leading character is then subject to tilde
expansion or comment start instead of standing for itself. -/
theorem c4_counterexample :
    (shellEscape [] = [] ∧ shLex (shellEscape []) = some [] ∧
      some ([] : List (List Char)) ≠ some [([] : List Char)]) ∧
    (shellEscape ['~'] = ['~'] ∧ shLex (shellEscape ['~']) = none) ∧
    (shellEscape ['#', 'x'] = ['#', 'x'] ∧ shLex (shellEscape ['#', 'x']) = none) :=
  ⟨⟨rfl, rfl, by decide⟩, ⟨rfl, rfl⟩, ⟨rfl, rfl⟩⟩

/-- Claim C4 as amended: for every nonempty argument — except those that
contain no character of the special set and begin with `~` or `#`, which
`shell_escape` returns unquoted with the leading character exposed to
tilde expansion or comment start — the escaped string parses as exactly
one shell token whose value is the original argument. In particular the
guarantee covers every argument containing whitespace or a shell
metacharacter: those are fully single-quoted, a leading `~` or `#`
included. -/
theorem c4_escape_single_token (s : List Char) (hne : s ≠ [])
    (hun : s.any isSpecialChar = false →
      ¬(s.head? = some '~') ∧ ¬(s.head? = some '#')) :
    shLex (shellEscape s) = some [s] := by
  by_cases hsp : s.any isSpecialChar
  · rw [shellEscape, if_pos hsp]
    exact shLex_quoted s
  · have hsp2 : s.any isSpecialChar = false := by
      cases h : s.any isSpecialChar with
      | true => exact absurd h hsp
      | false => rfl
    obtain ⟨h1, h2⟩ := hun hsp2
    rw [shellEscape, if_neg hsp]
    cases s with
    | nil => exact absurd rfl hne
    | cons c l =>
      have hall : ∀ x ∈ c :: l, isSpecialChar x = false := by
        intro x hx
        by_contra hxs
        exact hsp (List.any_eq_true.mpr ⟨x, hx, by
          cases hxx : isSpecialChar x with
          | true => rfl
          | false => exact absurd hxx hxs⟩)
      refine shLex_unquoted c l
        (shOrdinary_of_not_special c (hall c (List.mem_cons_self c l)))
        ?_ ?_ (fun x hx => shOrdinary_of_not_special x (hall x (List.mem_cons_of_mem c hx)))
      · intro hcc
        exact h2 (by simp [hcc])
      · intro hcc
        exact h1 (by simp [hcc])

/-- Witness for the amended C4: the argument `a b` (embedded blank) and
the argument `~ x` (leading tilde plus a blank, hence fully quoted) each
escape to a string parsing as the single original word. -/
theorem c4_witness :
    shLex (shellEscape ['a', ' ', 'b']) = some [['a', ' ', 'b']] ∧
    shLex (shellEscape ['~', ' ', 'x']) = some [['~', ' ', 'x']] :=
  ⟨c4_escape_single_token ['a', ' ', 'b'] (by decide)
    (fun h => absurd h (by decide)),
   c4_escape_single_token ['~', ' ', 'x'] (by decide)
    (fun h => absurd h (by decide))⟩
